import Mathlib

/-!
Verification model of the `uggsec` Go package: an encrypted-file secret
store.  Go byte strings are modelled as `List Nat` (each element a byte
value `< 256`); machine-word arithmetic is modelled on `Nat` with explicit
`% 256` where the Go code works in `uint8`.  External collaborators (the OS
keyring, the filesystem, environment variables) are modelled as explicit
state in a `Sys` structure; the Go standard-library primitives the package
calls (`crypto/aes`, `crypto/cipher`'s CFB mode, `encoding/base64`,
`math/rand.Intn`, `strings.Contains`) are modelled as executable Lean
functions following their documented behaviour.
-/

/-- A Go string / byte slice: a list of byte values. -/
abbrev GoStr := List Nat

/-- Byte xor in `uint8` arithmetic (the `% 256` records the byte width;
`Nat.xor` of bytes never exceeds it). -/
def xorByte (a b : Nat) : Nat := (a ^^^ b) % 256

/-! ## AES block cipher (models Go's `crypto/aes`, FIPS-197) -/

/-- The AES S-box (FIPS-197 table, as used by Go's `crypto/aes`). -/
def sbox : List Nat :=
  [99, 124, 119, 123, 242, 107, 111, 197, 48, 1, 103, 43, 254, 215, 171, 118,
   202, 130, 201, 125, 250, 89, 71, 240, 173, 212, 162, 175, 156, 164, 114, 192,
   183, 253, 147, 38, 54, 63, 247, 204, 52, 165, 229, 241, 113, 216, 49, 21,
   4, 199, 35, 195, 24, 150, 5, 154, 7, 18, 128, 226, 235, 39, 178, 117,
   9, 131, 44, 26, 27, 110, 90, 160, 82, 59, 214, 179, 41, 227, 47, 132,
   83, 209, 0, 237, 32, 252, 177, 91, 106, 203, 190, 57, 74, 76, 88, 207,
   208, 239, 170, 251, 67, 77, 51, 133, 69, 249, 2, 127, 80, 60, 159, 168,
   81, 163, 64, 143, 146, 157, 56, 245, 188, 182, 218, 33, 16, 255, 243, 210,
   205, 12, 19, 236, 95, 151, 68, 23, 196, 167, 126, 61, 100, 93, 25, 115,
   96, 129, 79, 220, 34, 42, 144, 136, 70, 238, 184, 20, 222, 94, 11, 219,
   224, 50, 58, 10, 73, 6, 36, 92, 194, 211, 172, 98, 145, 149, 228, 121,
   231, 200, 55, 109, 141, 213, 78, 169, 108, 86, 244, 234, 101, 122, 174, 8,
   186, 120, 37, 46, 28, 166, 180, 198, 232, 221, 116, 31, 75, 189, 139, 138,
   112, 62, 181, 102, 72, 3, 246, 14, 97, 53, 87, 185, 134, 193, 29, 158,
   225, 248, 152, 17, 105, 217, 142, 148, 155, 30, 135, 233, 206, 85, 40, 223,
   140, 161, 137, 13, 191, 230, 66, 104, 65, 153, 45, 15, 176, 84, 187, 22]

/-- S-box lookup of a byte value. -/
def sboxAt (b : Nat) : Nat := sbox.getD b 0

/-- Multiplication by 2 in GF(2^8) on a byte (`uint8` overflow masked). -/
def xtime (a : Nat) : Nat := if a < 128 then 2 * a else (2 * a) % 256 ^^^ 27

/-- Multiplication by 3 in GF(2^8). -/
def mul3 (a : Nat) : Nat := xtime a ^^^ a

/-- Xor of two byte words (lanes are bytes, so `xorByte`). -/
def xorW (a b : List Nat) : List Nat := List.zipWith xorByte a b

/-- AES key-schedule round constants. -/
def rconList : List Nat := [1, 2, 4, 8, 16, 32, 64, 128, 27, 54]

/-- Round constant for key-expansion step `j` (1-based). -/
def rconAt (j : Nat) : Nat := rconList.getD (j - 1) 0

/-- Byte rotation of a key word. -/
def rotWord : List Nat → List Nat
  | [] => []
  | a :: rest => rest ++ [a]

/-- S-box substitution on a key word. -/
def subWord (w : List Nat) : List Nat := w.map sboxAt

/-- Split a byte list into 4-byte words. -/
def chunks4 : List Nat → List (List Nat)
  | [] => []
  | [_] => []
  | [_, _] => []
  | [_, _, _] => []
  | a :: b :: c :: d :: rest => [a, b, c, d] :: chunks4 rest

/-- AES key expansion (FIPS-197 §5.2): from `Nk = |key| / 4` key words to
`4 * (Nr + 1)` round-key words, `Nr = Nk + 6`. -/
def expandKey (key : List Nat) : List (List Nat) :=
  let nk := key.length / 4
  (List.range (4 * (nk + 7) - nk)).foldl
    (fun ws j =>
      let i := j + nk
      let prev := ws.getD (i - 1) []
      let temp :=
        if i % nk = 0 then xorW (subWord (rotWord prev)) [rconAt (i / nk), 0, 0, 0]
        else if 6 < nk ∧ i % nk = 4 then subWord prev
        else prev
      ws ++ [xorW (ws.getD (i - nk) []) temp])
    (chunks4 key)

/-- The 16 bytes of round key `r` (column-major, matching the state layout). -/
def roundKeyBytes (w : List (List Nat)) (r : Nat) : List Nat :=
  w.getD (4 * r) [] ++ w.getD (4 * r + 1) [] ++ w.getD (4 * r + 2) [] ++ w.getD (4 * r + 3) []

/-- SubBytes on the 16-byte state. -/
def subBytes (s : List Nat) : List Nat := s.map sboxAt

/-- ShiftRows on the column-major state (index `r + 4c`). -/
def shiftRows (s : List Nat) : List Nat :=
  [s.getD 0 0, s.getD 5 0, s.getD 10 0, s.getD 15 0,
   s.getD 4 0, s.getD 9 0, s.getD 14 0, s.getD 3 0,
   s.getD 8 0, s.getD 13 0, s.getD 2 0, s.getD 7 0,
   s.getD 12 0, s.getD 1 0, s.getD 6 0, s.getD 11 0]

/-- MixColumns on one column. -/
def mixCol (a0 a1 a2 a3 : Nat) : List Nat :=
  [xtime a0 ^^^ mul3 a1 ^^^ a2 ^^^ a3,
   a0 ^^^ xtime a1 ^^^ mul3 a2 ^^^ a3,
   a0 ^^^ a1 ^^^ xtime a2 ^^^ mul3 a3,
   mul3 a0 ^^^ a1 ^^^ a2 ^^^ xtime a3]

/-- MixColumns on the 16-byte state. -/
def mixColumns (s : List Nat) : List Nat :=
  mixCol (s.getD 0 0) (s.getD 1 0) (s.getD 2 0) (s.getD 3 0) ++
  mixCol (s.getD 4 0) (s.getD 5 0) (s.getD 6 0) (s.getD 7 0) ++
  mixCol (s.getD 8 0) (s.getD 9 0) (s.getD 10 0) (s.getD 11 0) ++
  mixCol (s.getD 12 0) (s.getD 13 0) (s.getD 14 0) (s.getD 15 0)

/-- AddRoundKey: bytewise xor of state and round key. -/
def addRoundKey (s rk : List Nat) : List Nat := List.zipWith xorByte s rk

/-- AES block encryption (FIPS-197 §5.1), the function Go's
`cipher.Block.Encrypt` computes for an AES key. -/
def aesEncryptBlock (key : List Nat) (blk : List Nat) : List Nat :=
  let w := expandKey key
  let nr := key.length / 4 + 6
  let st0 := addRoundKey blk (roundKeyBytes w 0)
  let stN := (List.range (nr - 1)).foldl
    (fun st r => addRoundKey (mixColumns (shiftRows (subBytes st))) (roundKeyBytes w (r + 1)))
    st0
  addRoundKey (shiftRows (subBytes stN)) (roundKeyBytes w nr)

/-- Go's `aes.NewCipher`: accepts key lengths 16, 24 and 32, otherwise
returns `KeySizeError`.  (Go's message appends the numeric size; it is
omitted here since no caller of this package inspects the number.) -/
def aesNewCipher (key : GoStr) : Except String (List Nat → List Nat) :=
  if key.length = 16 ∨ key.length = 24 ∨ key.length = 32 then Except.ok (aesEncryptBlock key)
  else Except.error "crypto/aes: invalid key size"

/-! ## CFB mode (models Go's `cipher.NewCFBEncrypter` / `NewCFBDecrypter`) -/

/-- CFB encryption: each 16-byte keystream block is the block encryption of
the previous ciphertext block (initially the IV); fuel is an upper bound on
the number of steps (one input byte per step suffices). -/
def cfbEncryptAux : Nat → (List Nat → List Nat) → List Nat → List Nat → List Nat
  | 0, _, _, _ => []
  | _ + 1, _, _, [] => []
  | fuel + 1, E, reg, p :: ps =>
    let pt := p :: ps
    let ct := List.zipWith xorByte (pt.take 16) (E reg)
    ct ++ cfbEncryptAux fuel E ct (pt.drop 16)

/-- CFB stream encryption with initial register `iv`. -/
def cfbEncrypt (E : List Nat → List Nat) (iv pt : List Nat) : List Nat :=
  cfbEncryptAux pt.length E iv pt

/-- CFB decryption: same keystream, register fed with the incoming
ciphertext blocks. -/
def cfbDecryptAux : Nat → (List Nat → List Nat) → List Nat → List Nat → List Nat
  | 0, _, _, _ => []
  | _ + 1, _, _, [] => []
  | fuel + 1, E, reg, c :: cs =>
    let ct := c :: cs
    let pt := List.zipWith xorByte (ct.take 16) (E reg)
    pt ++ cfbDecryptAux fuel E (ct.take 16) (ct.drop 16)

/-- CFB stream decryption with initial register `iv`. -/
def cfbDecrypt (E : List Nat → List Nat) (iv ct : List Nat) : List Nat :=
  cfbDecryptAux ct.length E iv ct

/-! ## Base64 (models Go's `encoding/base64` standard encoding) -/

/-- The standard base64 alphabet
`ABCDEFGHIJKLMNOPQRSTUVWXYZabcdefghijklmnopqrstuvwxyz0123456789+/`
as byte values. -/
def b64chars : List Nat :=
  [65, 66, 67, 68, 69, 70, 71, 72, 73, 74, 75, 76, 77, 78, 79, 80, 81, 82, 83,
   84, 85, 86, 87, 88, 89, 90, 97, 98, 99, 100, 101, 102, 103, 104, 105, 106,
   107, 108, 109, 110, 111, 112, 113, 114, 115, 116, 117, 118, 119, 120, 121,
   122, 48, 49, 50, 51, 52, 53, 54, 55, 56, 57, 43, 47]

/-- Character for a 6-bit value. -/
def b64charAt (i : Nat) : Nat := b64chars.getD i 0

/-- The `uggsec.encode` helper: `base64.StdEncoding.EncodeToString`
(standard alphabet, with `'='` = byte 61 padding). -/
def encode : List Nat → List Nat
  | [] => []
  | [a] => [b64charAt (a / 4), b64charAt (a % 4 * 16), 61, 61]
  | [a, b] => [b64charAt (a / 4), b64charAt (a % 4 * 16 + b / 16), b64charAt (b % 16 * 4), 61]
  | a :: b :: c :: rest =>
    b64charAt (a / 4) :: b64charAt (a % 4 * 16 + b / 16) ::
    b64charAt (b % 16 * 4 + c / 64) :: b64charAt (c % 64) :: encode rest

/-- Index of a byte in the base64 alphabet (Go's decode map). -/
def charIndex (c : Nat) : Option Nat := b64chars.findIdx? (fun x => x == c)

/-- Decode 4-character groups; `none` models `base64.CorruptInputError`
(bad character, padding not at the end, or an incomplete final group). -/
def decodeGroups : List Nat → Option (List Nat)
  | [] => some []
  | c1 :: c2 :: c3 :: c4 :: rest =>
    if c4 = 61 then
      if rest = [] then
        if c3 = 61 then
          match charIndex c1, charIndex c2 with
          | some v1, some v2 => some [v1 * 4 + v2 / 16]
          | _, _ => none
        else
          match charIndex c1, charIndex c2, charIndex c3 with
          | some v1, some v2, some v3 =>
            some [v1 * 4 + v2 / 16, v2 % 16 * 16 + v3 / 4]
          | _, _, _ => none
      else none
    else
      match charIndex c1, charIndex c2, charIndex c3, charIndex c4, decodeGroups rest with
      | some v1, some v2, some v3, some v4, some bs =>
        some ((v1 * 4 + v2 / 16) :: (v2 % 16 * 16 + v3 / 4) :: (v3 % 4 * 64 + v4) :: bs)
      | _, _, _, _, _ => none
  | _ => none

/-- `base64.StdEncoding.DecodeString`: newline bytes are skipped, then the
input is decoded in 4-character groups; `none` is a decode error. -/
def decode (s : List Nat) : Option (List Nat) :=
  decodeGroups (s.filter (fun c => !(c == 10 || c == 13)))

/-! ## `strings.Contains` -/

/-- Whether `needle` is a leading segment of `hay`. -/
def strStarts : List Char → List Char → Bool
  | _, [] => true
  | [], _ :: _ => false
  | a :: as, b :: bs => a == b && strStarts as bs

/-- Substring search on character lists. -/
def strContainsL : List Char → List Char → Bool
  | _, [] => true
  | [], _ :: _ => false
  | a :: as, b :: bs => strStarts (a :: as) (b :: bs) || strContainsL as (b :: bs)

/-- Go's `strings.Contains`. -/
def strContains (hay needle : String) : Bool := strContainsL hay.data needle.data

/-! ## The uggsec package: constants and data model -/

/-- The hardcoded 16-byte initialization vector (package variable `bytes`). -/
def bytes : List Nat := [35, 46, 57, 24, 85, 35, 24, 74, 87, 35, 88, 98, 66, 32, 14, 5]

/-- Package constant `keySize`. -/
def keySize : Nat := 32

/-- Package variable `letterRunes`:
`"abcdefghijklmnopqrstuvwxyzABCDEFGHIJKLMNOPQRSTUVWXYZ123456789"`
as rune (= ASCII byte) values; 61 symbols. -/
def letterRunes : List Nat :=
  [97, 98, 99, 100, 101, 102, 103, 104, 105, 106, 107, 108, 109, 110, 111, 112,
   113, 114, 115, 116, 117, 118, 119, 120, 121, 122, 65, 66, 67, 68, 69, 70,
   71, 72, 73, 74, 75, 76, 77, 78, 79, 80, 81, 82, 83, 84, 85, 86, 87, 88, 89,
   90, 49, 50, 51, 52, 53, 54, 55, 56, 57]

/-- Modelled from the spec: the 62-symbol alphabet `[a-zA-Z0-9]` the spec
says generated key material is drawn from (for comparison with the
source's `letterRunes`). -/
def specAlphabet : List Nat :=
  [97, 98, 99, 100, 101, 102, 103, 104, 105, 106, 107, 108, 109, 110, 111, 112,
   113, 114, 115, 116, 117, 118, 119, 120, 121, 122, 65, 66, 67, 68, 69, 70,
   71, 72, 73, 74, 75, 76, 77, 78, 79, 80, 81, 82, 83, 84, 85, 86, 87, 88, 89,
   90, 48, 49, 50, 51, 52, 53, 54, 55, 56, 57]

/-- `uggsec.VaultInput`. -/
structure VaultInput where
  Service : String
  User : String
  PasswordEnvVar : String
  Filename : String
deriving DecidableEq

/-- `uggsec.Vault`. -/
structure Vault where
  service : String
  user : String
  filename : String
  passwordEnvVar : String
  keyring : Bool
deriving DecidableEq

/-- The external world the package interacts with: the OS keyring (its
entries, plus an optional backend failure), the filesystem (whole files by
name), the environment, and the platform's file-not-found error text
(Go propagates the OS message verbatim, e.g.
`"open f: no such file or directory"` on Linux,
`"open f: The system cannot find the file specified."` on Windows). -/
structure Sys where
  keyringEntries : List ((String × String) × GoStr)
  keyringDown : Option String
  files : List (String × GoStr)
  env : List (String × GoStr)
  fileNotFoundMsg : String
deriving DecidableEq

/-- `keyring.Get` (zalando go-keyring): backend failure, the library's
`ErrNotFound` message, or the stored secret. -/
def keyringGet (s : Sys) (service user : String) : Except String GoStr :=
  match s.keyringDown with
  | some m => Except.error m
  | none =>
    match s.keyringEntries.lookup (service, user) with
    | some v => Except.ok v
    | none => Except.error "secret not found in keyring"

/-- `keyring.Set`: stores the secret (visible to later `Get`), or fails
when the backend is down. -/
def keyringSet (s : Sys) (service user : String) (secret : GoStr) : Option String × Sys :=
  match s.keyringDown with
  | some m => (some m, s)
  | none => (none, { s with keyringEntries := ((service, user), secret) :: s.keyringEntries })

/-- `ioutil.ReadFile`: the file's bytes, or the platform's not-found error. -/
def readFile (s : Sys) (fname : String) : Except String GoStr :=
  match s.files.lookup fname with
  | some d => Except.ok d
  | none => Except.error s.fileNotFoundMsg

/-- `ioutil.WriteFile` with mode 0600: replaces the whole file contents
(permission bits are not modelled). -/
def writeFile (s : Sys) (fname : String) (data : GoStr) : Sys :=
  { s with files := (fname, data) :: s.files }

/-- `os.Getenv`: the variable's value, `[]` (Go `""`) when unset. -/
def getenv (s : Sys) (name : String) : GoStr := (s.env.lookup name).getD []

/-- Result of a Go call: a normal return, or an escaped `panic`. -/
inductive Res (α : Type) where
  | ok (a : α)
  | err (msg : String)
  | panicked (msg : String)
deriving DecidableEq

/-! ## The uggsec package: functions -/

/-- `randStringRunes`: `n` characters picked by successive `rand.Intn 61`
calls.  The global `math/rand` source is modelled as the stream `rnd` of
its outputs (reduced mod 61, the range Go guarantees). -/
def randStringRunes (n : Nat) (rnd : Nat → Nat) : GoStr :=
  (List.range n).map (fun j => letterRunes.getD (rnd j % letterRunes.length) 0)

/-- `NewVaultPassword`: reseeds the global generator (the seeding is
absorbed into the stream `rnd`) and draws `keySize` characters. -/
def NewVaultPassword (rnd : Nat → Nat) : GoStr := randStringRunes keySize rnd

/-- `uggsec.encrypt`: build the AES cipher from the password bytes, CFB
encrypt with the fixed IV `bytes`, base64 encode. -/
def encrypt (text password : GoStr) : Except String GoStr :=
  match aesNewCipher password with
  | Except.error e => Except.error e
  | Except.ok E => Except.ok (encode (cfbEncrypt E bytes text))

/-- `uggsec.decrypt`: build the AES cipher, base64 decode (the `decode`
helper PANICS on a decode error), CFB decrypt with the fixed IV. -/
def decrypt (encrypted password : GoStr) : Res GoStr :=
  match aesNewCipher password with
  | Except.error e => Res.err e
  | Except.ok E =>
    match decode encrypted with
    | none => Res.panicked "illegal base64 data"
    | some cipherText => Res.ok (cfbDecrypt E bytes cipherText)

/-- `Vault.getPasswordEnv`: empty value is the error
`"no password found in <name> env var"`. -/
def Vault.getPasswordEnv (v : Vault) (s : Sys) : GoStr × Option String :=
  let password := getenv s v.passwordEnvVar
  if password = [] then ([], some ("no password found in " ++ v.passwordEnvVar ++ " env var"))
  else (password, none)

/-- `Vault.getPasswordKeyring`. -/
def Vault.getPasswordKeyring (v : Vault) (s : Sys) : GoStr × Option String :=
  match keyringGet s v.service v.user with
  | Except.ok p => (p, none)
  | Except.error e => ([], some e)

/-- `Vault.getPassword`: dispatch on the vault's backend flag. -/
def Vault.getPassword (v : Vault) (s : Sys) : GoStr × Option String :=
  if v.keyring then v.getPasswordKeyring s else v.getPasswordEnv s

/-- `Vault.loadFromDisk`: read the file, resolve the password, decrypt
(which may panic on malformed base64). -/
def Vault.loadFromDisk (v : Vault) (s : Sys) : Res GoStr :=
  match readFile s v.filename with
  | Except.error e => Res.err e
  | Except.ok data =>
    match v.getPassword s with
    | (_, some e) => Res.err e
    | (password, none) => decrypt data password

/-- `Vault.Read`. -/
def Vault.Read (v : Vault) (s : Sys) : Res GoStr := v.loadFromDisk s

/-- `Vault.Write`: resolve the password, encrypt, then (only on success of
both) replace the file. -/
def Vault.Write (v : Vault) (contents : GoStr) (s : Sys) : Option String × Sys :=
  match v.getPassword s with
  | (_, some e) => (some e, s)
  | (password, none) =>
    match encrypt contents password with
    | Except.error e => (some e, s)
    | Except.ok encrypted => (none, writeFile s v.filename encrypted)

/-- `uggsec.initKeyring` (lowercase): store a fresh password in the
keyring. -/
def initKeyring (service user : String) (rnd : Nat → Nat) (s : Sys) : Option String × Sys :=
  keyringSet s service user (NewVaultPassword rnd)

/-- Lines 93-102 of `InitKeyring`: try to load the configured file; when
the error text contains the (Windows) not-found message, bootstrap the
file by writing empty content. -/
def initKeyringLoadFile (v : Vault) (s : Sys) : Res (Vault × Option String) × Sys :=
  match v.loadFromDisk s with
  | Res.panicked m => (Res.panicked m, s)
  | Res.err e =>
    if strContains e "system cannot find the file specified" then
      match v.Write [] s with
      | (werr, s1) => (Res.ok (v, werr), s1)
    else (Res.ok (v, some e), s)
  | Res.ok _ => (Res.ok (v, none), s)

/-- `uggsec.InitKeyring`. -/
def InitKeyring (i : VaultInput) (rnd : Nat → Nat) (s : Sys) : Res (Vault × Option String) × Sys :=
  let v : Vault :=
    { service := i.Service, user := i.User, filename := i.Filename,
      passwordEnvVar := "", keyring := false }
  match keyringGet s i.Service i.User with
  | Except.error e =>
    if strContains e "secret not found in keyring" then
      match initKeyring v.service v.user rnd s with
      | (some e2, s1) => (Res.ok (v, some e2), s1)
      | (none, s1) => initKeyringLoadFile { v with keyring := true } s1
    else (Res.ok (v, some e), s)
  | Except.ok _ => initKeyringLoadFile { v with keyring := true } s

/-- `uggsec.InitEnvVar`. -/
def InitEnvVar (i : VaultInput) (s : Sys) : Res (Vault × Option String) × Sys :=
  let v : Vault :=
    { service := "", user := "", filename := i.Filename,
      passwordEnvVar := i.PasswordEnvVar, keyring := false }
  match v.getPassword s with
  | (_, e) => (Res.ok (v, e), s)

/-- `uggsec.InitSmart`: env-var backend whenever `PasswordEnvVar` is
non-empty, keyring backend otherwise. -/
def InitSmart (i : VaultInput) (rnd : Nat → Nat) (s : Sys) : Res (Vault × Option String) × Sys :=
  if i.PasswordEnvVar ≠ "" then InitEnvVar i s else InitKeyring i rnd s

/-! ## Generic list lemmas -/

/-- `getD` yields either a member of the list or the default. -/
theorem getD_prop {α : Type} (P : α → Prop) (l : List α) (d : α)
    (hl : ∀ b ∈ l, P b) (hd : P d) : ∀ i, P (l.getD i d) := by
  induction l with
  | nil => intro i; simpa [List.getD] using hd
  | cons a t ih =>
    intro i
    cases i with
    | zero => exact hl a (by simp)
    | succ j =>
      exact ih (fun b hb => hl b (by simp [hb])) j

/-- An in-range `getD` is a member of the list. -/
theorem getD_mem_of_lt {α : Type} (l : List α) (d : α) (i : Nat)
    (h : i < l.length) : l.getD i d ∈ l := by
  rw [List.getD_eq_getElem l d h]
  exact List.getElem_mem h

/-- Invariant preservation along a fold over `List.range n`. -/
theorem foldl_range_inv {β : Type} (P : Nat → β → Prop) (f : β → Nat → β)
    (n : Nat) (init : β) (h0 : P 0 init)
    (hs : ∀ j b, j < n → P j b → P (j + 1) (f b j)) :
    P n ((List.range n).foldl f init) := by
  induction n with
  | zero => simpa using h0
  | succ m ih =>
    rw [List.range_succ, List.foldl_append]
    exact hs m _ (Nat.lt_succ_self m)
      (ih (fun j b hj hb => hs j b (Nat.lt_succ_of_lt hj) hb))

/-- Bytes produced by a masked xor are bytes. -/
theorem xorByte_lt (a b : Nat) : xorByte a b < 256 :=
  Nat.mod_lt _ (by norm_num)

/-- Masked xor is an involution on bytes. -/
theorem xorByte_cancel {a b : Nat} (ha : a < 256) (hb : b < 256) :
    xorByte (xorByte a b) b = a := by
  unfold xorByte
  have hx8 : a ^^^ b < 2 ^ 8 := Nat.xor_lt_two_pow (by simpa using ha) (by simpa using hb)
  have hx : a ^^^ b < 256 := by simpa using hx8
  rw [Nat.mod_eq_of_lt hx, Nat.xor_cancel_right, Nat.mod_eq_of_lt ha]

/-- Every element of a masked-xor zip is a byte. -/
theorem zipWith_xorByte_lt {l₁ l₂ : List Nat} {x : Nat}
    (h : x ∈ List.zipWith xorByte l₁ l₂) : x < 256 := by
  induction l₁ generalizing l₂ with
  | nil => simp at h
  | cons a t ih =>
    cases l₂ with
    | nil => simp at h
    | cons b t₂ =>
      simp only [List.zipWith, List.mem_cons] at h
      rcases h with h | h
      · subst h; exact xorByte_lt a b
      · exact ih h

/-- Zipping twice with the same byte list cancels. -/
theorem zw_cancel : ∀ (a b : List Nat), a.length ≤ b.length →
    (∀ x ∈ a, x < 256) → (∀ x ∈ b, x < 256) →
    List.zipWith xorByte (List.zipWith xorByte a b) b = a := by
  intro a
  induction a with
  | nil => intro b _ _ _; simp
  | cons x t ih =>
    intro b hlen hx hb
    cases b with
    | nil => simp at hlen
    | cons y u =>
      simp only [List.zipWith, List.cons.injEq]
      constructor
      · exact xorByte_cancel (hx x (by simp)) (hb y (by simp))
      · exact ih u (by simpa using hlen) (fun z hz => hx z (by simp [hz]))
          (fun z hz => hb z (by simp [hz]))

/-! ## AES structural lemmas -/

theorem rotWord_length (w : List Nat) : (rotWord w).length = w.length := by
  cases w <;> simp [rotWord]

theorem subWord_length (w : List Nat) : (subWord w).length = w.length := by
  simp [subWord]

theorem xorW_length (a b : List Nat) : (xorW a b).length = min a.length b.length := by
  simp [xorW]

theorem chunks4_spec : ∀ (l : List Nat), l.length % 4 = 0 →
    (chunks4 l).length = l.length / 4 ∧ ∀ u ∈ chunks4 l, u.length = 4 := by
  intro l
  induction l using chunks4.induct with
  | case1 => intro _; simp [chunks4]
  | case2 => intro h; simp at h
  | case3 => intro h; simp at h
  | case4 => intro h; simp at h
  | case5 a b c d rest ih =>
    intro h
    simp only [List.length_cons] at h
    have h4 : rest.length % 4 = 0 := by omega
    rcases ih h4 with ⟨hl, hm⟩
    constructor
    · simp only [chunks4, List.length_cons, hl]
      omega
    · intro u hu
      simp only [chunks4, List.mem_cons] at hu
      rcases hu with hu | hu
      · subst hu; rfl
      · exact hm u hu

/-- Every expanded key word has 4 bytes, and the schedule has
`4 * (Nk + 7)` words. -/
theorem expandKey_spec (key : GoStr) (h4 : key.length % 4 = 0)
    (hpos : 0 < key.length / 4) :
    (expandKey key).length = 4 * (key.length / 4 + 7) ∧
      ∀ u ∈ expandKey key, u.length = 4 := by
  have main := foldl_range_inv
    (fun j ws => ws.length = key.length / 4 + j ∧ ∀ u ∈ ws, u.length = 4)
    (fun ws j =>
      let i := j + key.length / 4
      let prev := ws.getD (i - 1) []
      let temp :=
        if i % (key.length / 4) = 0 then
          xorW (subWord (rotWord prev)) [rconAt (i / (key.length / 4)), 0, 0, 0]
        else if 6 < key.length / 4 ∧ i % (key.length / 4) = 4 then subWord prev
        else prev
      ws ++ [xorW (ws.getD (i - key.length / 4) []) temp])
    (4 * (key.length / 4 + 7) - key.length / 4)
    (chunks4 key)
    (by
      rcases chunks4_spec key h4 with ⟨hl, hm⟩
      exact ⟨by simpa using hl, hm⟩)
    (by
      intro j ws _ hP
      rcases hP with ⟨hlen, hall⟩
      refine ⟨by simp [hlen]; omega, ?_⟩
      intro u hu
      rw [List.mem_append] at hu
      rcases hu with hu | hu
      · exact hall u hu
      · rw [List.mem_singleton] at hu
        subst hu
        have hidx1 : j + key.length / 4 - key.length / 4 = j := by omega
        have hj : j < ws.length := by omega
        have hw1 : (ws.getD (j + key.length / 4 - key.length / 4) []).length = 4 := by
          rw [hidx1]; exact hall _ (getD_mem_of_lt ws [] j hj)
        have hprev : (ws.getD (j + key.length / 4 - 1) []).length = 4 := by
          have : j + key.length / 4 - 1 < ws.length := by omega
          exact hall _ (getD_mem_of_lt ws [] _ this)
        rw [xorW_length, hw1]
        split
        · rw [xorW_length, subWord_length, rotWord_length, hprev]; simp
        · split
          · rw [subWord_length, hprev]; simp
          · rw [hprev]; simp)
  rcases main with ⟨hlen, hall⟩
  refine ⟨?_, ?_⟩
  · show (expandKey key).length = _
    simp only [expandKey] at hlen ⊢
    rw [hlen]
    omega
  · intro u hu
    simp only [expandKey] at hu
    exact hall u hu

theorem roundKeyBytes_length (w : List (List Nat)) (r : Nat)
    (hall : ∀ u ∈ w, u.length = 4) (hr : 4 * r + 3 < w.length) :
    (roundKeyBytes w r).length = 16 := by
  have h0 : (w.getD (4 * r) []).length = 4 :=
    hall _ (getD_mem_of_lt w [] _ (by omega))
  have h1 : (w.getD (4 * r + 1) []).length = 4 :=
    hall _ (getD_mem_of_lt w [] _ (by omega))
  have h2 : (w.getD (4 * r + 2) []).length = 4 :=
    hall _ (getD_mem_of_lt w [] _ (by omega))
  have h3 : (w.getD (4 * r + 3) []).length = 4 :=
    hall _ (getD_mem_of_lt w [] _ (by omega))
  simp only [roundKeyBytes, List.length_append, h0, h1, h2, h3]

theorem shiftRows_length (s : List Nat) : (shiftRows s).length = 16 := by
  simp [shiftRows]

/-- For any accepted key size, the AES block function returns 16 bytes
whatever its input is. -/
theorem aesEncryptBlock_length (key blk : List Nat)
    (hk : key.length = 16 ∨ key.length = 24 ∨ key.length = 32) :
    (aesEncryptBlock key blk).length = 16 := by
  have h4 : key.length % 4 = 0 := by rcases hk with h | h | h <;> simp [h]
  have hpos : 0 < key.length / 4 := by rcases hk with h | h | h <;> simp [h]
  rcases expandKey_spec key h4 hpos with ⟨hlen, hall⟩
  simp only [aesEncryptBlock, addRoundKey]
  rw [List.length_zipWith, shiftRows_length,
    roundKeyBytes_length _ _ hall (by rw [hlen]; omega)]
  simp

/-- AES output bytes are bytes. -/
theorem aesEncryptBlock_lt (key blk : List Nat) :
    ∀ x ∈ aesEncryptBlock key blk, x < 256 := by
  intro x hx
  simp only [aesEncryptBlock, addRoundKey] at hx
  exact zipWith_xorByte_lt hx

/-! ## CFB lemmas -/

theorem cfbEncryptAux_nil (fuel : Nat) (E : List Nat → List Nat) (reg : List Nat) :
    cfbEncryptAux fuel E reg [] = [] := by
  cases fuel <;> rfl

theorem cfbDecryptAux_nil (fuel : Nat) (E : List Nat → List Nat) (reg : List Nat) :
    cfbDecryptAux fuel E reg [] = [] := by
  cases fuel <;> rfl

theorem cfbDecryptAux_cons (fuel : Nat) (E : List Nat → List Nat) (reg ct : List Nat)
    (h : ct ≠ []) :
    cfbDecryptAux (fuel + 1) E reg ct =
      List.zipWith xorByte (ct.take 16) (E reg) ++
        cfbDecryptAux fuel E (ct.take 16) (ct.drop 16) := by
  cases ct with
  | nil => exact absurd rfl h
  | cons c cs => rfl

/-- CFB preserves length (stream cipher, no padding). -/
theorem cfbEncryptAux_length (E : List Nat → List Nat) (hE : ∀ b, (E b).length = 16) :
    ∀ fuel reg pt, pt.length ≤ fuel →
      (cfbEncryptAux fuel E reg pt).length = pt.length := by
  intro fuel
  induction fuel with
  | zero =>
    intro reg pt h
    have h0 : pt.length = 0 := Nat.le_zero.mp h
    rw [List.length_eq_zero] at h0
    subst h0
    rfl
  | succ f ih =>
    intro reg pt h
    cases pt with
    | nil => rfl
    | cons p ps =>
      simp only [cfbEncryptAux]
      rw [List.length_append, List.length_zipWith, List.length_take, hE,
        ih _ _ (by rw [List.length_drop]; simp only [List.length_cons] at h ⊢; omega)]
      rw [List.length_drop]
      simp only [List.length_cons]
      omega

/-- CFB output bytes are bytes. -/
theorem cfbEncryptAux_lt : ∀ (fuel : Nat) (E : List Nat → List Nat) (reg pt : List Nat),
    ∀ x ∈ cfbEncryptAux fuel E reg pt, x < 256 := by
  intro fuel
  induction fuel with
  | zero => intro E reg pt x hx; simp [cfbEncryptAux] at hx
  | succ f ih =>
    intro E reg pt x hx
    cases pt with
    | nil => simp [cfbEncryptAux] at hx
    | cons p ps =>
      simp only [cfbEncryptAux, List.mem_append] at hx
      rcases hx with hx | hx
      · exact zipWith_xorByte_lt hx
      · exact ih E _ _ x hx

/-- CFB decryption inverts CFB encryption (for byte plaintexts and a block
function that always returns 16 bytes). -/
theorem cfb_roundtrip_aux (E : List Nat → List Nat)
    (hlen : ∀ b, (E b).length = 16) (hbd : ∀ b, ∀ x ∈ E b, x < 256) :
    ∀ fuel₁ fuel₂ reg pt, pt.length ≤ fuel₁ → pt.length ≤ fuel₂ →
      (∀ x ∈ pt, x < 256) →
      cfbDecryptAux fuel₂ E reg (cfbEncryptAux fuel₁ E reg pt) = pt := by
  intro fuel₁
  induction fuel₁ with
  | zero =>
    intro fuel₂ reg pt h1 _ _
    have h0 : pt.length = 0 := Nat.le_zero.mp h1
    rw [List.length_eq_zero] at h0
    subst h0
    rw [cfbEncryptAux_nil, cfbDecryptAux_nil]
  | succ f ih =>
    intro fuel₂ reg pt h1 h2 hpt
    cases pt with
    | nil => rw [cfbEncryptAux_nil, cfbDecryptAux_nil]
    | cons p ps =>
      have hpos : 0 < (p :: ps).length := by simp
      obtain ⟨f₂, rfl⟩ : ∃ f₂, fuel₂ = f₂ + 1 :=
        ⟨fuel₂ - 1, by simp only [List.length_cons] at h2; omega⟩
      simp only [cfbEncryptAux]
      have hct1len : (List.zipWith xorByte ((p :: ps).take 16) (E reg)).length
          = min (p :: ps).length 16 := by
        rw [List.length_zipWith, List.length_take, hlen]
        omega
      by_cases hle : (p :: ps).length ≤ 16
      · have hdrop : (p :: ps).drop 16 = [] := List.drop_eq_nil_of_le (by omega)
        rw [hdrop, cfbEncryptAux_nil, List.append_nil]
        have hne : List.zipWith xorByte ((p :: ps).take 16) (E reg) ≠ [] := by
          intro hcon
          rw [hcon] at hct1len
          simp at hct1len
          omega
        rw [cfbDecryptAux_cons _ _ _ _ hne]
        have htake : (List.zipWith xorByte ((p :: ps).take 16) (E reg)).take 16
            = List.zipWith xorByte ((p :: ps).take 16) (E reg) :=
          List.take_of_length_le (by rw [hct1len]; omega)
        have hdrop2 : (List.zipWith xorByte ((p :: ps).take 16) (E reg)).drop 16 = [] :=
          List.drop_eq_nil_of_le (by rw [hct1len]; omega)
        rw [htake, hdrop2, cfbDecryptAux_nil, List.append_nil]
        have htakept : (p :: ps).take 16 = p :: ps := List.take_of_length_le hle
        rw [htakept]
        exact zw_cancel (p :: ps) (E reg) (by rw [hlen]; omega) hpt (hbd reg)
      · set A := List.zipWith xorByte ((p :: ps).take 16) (E reg) with hA
        set B := cfbEncryptAux f E A ((p :: ps).drop 16) with hB
        have hct1len16 : A.length = 16 := by rw [hct1len]; omega
        have hne : A ++ B ≠ [] := by
          intro hcon
          rw [List.append_eq_nil] at hcon
          have := hcon.1
          rw [this] at hct1len16
          simp at hct1len16
        rw [cfbDecryptAux_cons _ _ _ _ hne]
        have htk : (A ++ B).take 16 = A := by
          rw [← hct1len16]
          exact List.take_left _ _
        have hdp : (A ++ B).drop 16 = B := by
          rw [← hct1len16]
          exact List.drop_left _ _
        rw [htk, hdp]
        have hfirst : List.zipWith xorByte A (E reg) = (p :: ps).take 16 := by
          rw [hA]
          exact zw_cancel _ (E reg) (by rw [List.length_take, hlen]; omega)
            (fun x hx => hpt x (List.take_subset 16 _ hx)) (hbd reg)
        have hrest : cfbDecryptAux f₂ E A B = (p :: ps).drop 16 := by
          rw [hB]
          apply ih
          · rw [List.length_drop]; simp only [List.length_cons] at h1 ⊢; omega
          · rw [List.length_drop]; simp only [List.length_cons] at h2 ⊢; omega
          · exact fun x hx => hpt x (List.drop_subset 16 _ hx)
        rw [hfirst, hrest, List.take_append_drop]

/-- Top-level CFB round trip. -/
theorem cfb_roundtrip (E : List Nat → List Nat)
    (hlen : ∀ b, (E b).length = 16) (hbd : ∀ b, ∀ x ∈ E b, x < 256)
    (iv pt : List Nat) (hpt : ∀ x ∈ pt, x < 256) :
    cfbDecrypt E iv (cfbEncrypt E iv pt) = pt := by
  unfold cfbDecrypt cfbEncrypt
  rw [cfbEncryptAux_length E hlen pt.length iv pt (le_refl _)]
  exact cfb_roundtrip_aux E hlen hbd pt.length pt.length iv pt (le_refl _) (le_refl _) hpt

/-! ## Base64 lemmas -/

/-- Alphabet characters are never newline bytes nor the padding byte. -/
theorem b64charAt_prop : ∀ i, b64charAt i ≠ 10 ∧ b64charAt i ≠ 13 ∧ b64charAt i ≠ 61 := by
  intro i
  unfold b64charAt
  exact getD_prop (fun x => x ≠ 10 ∧ x ≠ 13 ∧ x ≠ 61) b64chars 0 (by decide) (by decide) i

/-- The decode map inverts the encode table on 6-bit values. -/
theorem charIndex_b64charAt : ∀ v, v < 64 → charIndex (b64charAt v) = some v := by decide

/-- Every byte of an encoding is an alphabet character or padding. -/
theorem encode_mem : ∀ (l : List Nat), ∀ c ∈ encode l, (∃ i, c = b64charAt i) ∨ c = 61 := by
  intro l
  induction l using encode.induct with
  | case1 => intro c hc; simp [encode] at hc
  | case2 a =>
    intro c hc
    simp only [encode, List.mem_cons, List.not_mem_nil, or_false] at hc
    rcases hc with h | h | h | h
    · exact Or.inl ⟨_, h⟩
    · exact Or.inl ⟨_, h⟩
    · exact Or.inr h
    · exact Or.inr h
  | case3 a b =>
    intro c hc
    simp only [encode, List.mem_cons, List.not_mem_nil, or_false] at hc
    rcases hc with h | h | h | h
    · exact Or.inl ⟨_, h⟩
    · exact Or.inl ⟨_, h⟩
    · exact Or.inl ⟨_, h⟩
    · exact Or.inr h
  | case4 a b c rest ih =>
    intro x hx
    simp only [encode, List.mem_cons] at hx
    rcases hx with h | h | h | h | h
    · exact Or.inl ⟨_, h⟩
    · exact Or.inl ⟨_, h⟩
    · exact Or.inl ⟨_, h⟩
    · exact Or.inl ⟨_, h⟩
    · exact ih x h

/-- Encodings contain no newline bytes, so Go's newline skipping is the
identity on them. -/
theorem encode_filter (l : List Nat) :
    (encode l).filter (fun c => !(c == 10 || c == 13)) = encode l := by
  rw [List.filter_eq_self]
  intro c hc
  rcases encode_mem l c hc with ⟨i, rfl⟩ | rfl
  · have h := b64charAt_prop i
    simp [h.1, h.2.1]
  · simp

/-- Group decoding inverts encoding on byte lists. -/
theorem decodeGroups_encode : ∀ (l : List Nat), (∀ b ∈ l, b < 256) →
    decodeGroups (encode l) = some l := by
  intro l
  induction l using encode.induct with
  | case1 => intro _; rfl
  | case2 a =>
    intro h
    have ha : a < 256 := h a (by simp)
    have h1 : charIndex (b64charAt (a / 4)) = some (a / 4) :=
      charIndex_b64charAt _ (by omega)
    have h2 : charIndex (b64charAt (a % 4 * 16)) = some (a % 4 * 16) :=
      charIndex_b64charAt _ (by omega)
    simp [encode, decodeGroups, h1, h2]
    omega
  | case3 a b =>
    intro h
    have ha : a < 256 := h a (by simp)
    have hb : b < 256 := h b (by simp)
    have h1 : charIndex (b64charAt (a / 4)) = some (a / 4) :=
      charIndex_b64charAt _ (by omega)
    have h2 : charIndex (b64charAt (a % 4 * 16 + b / 16)) = some (a % 4 * 16 + b / 16) :=
      charIndex_b64charAt _ (by omega)
    have h3 : charIndex (b64charAt (b % 16 * 4)) = some (b % 16 * 4) :=
      charIndex_b64charAt _ (by omega)
    have hne : b64charAt (b % 16 * 4) ≠ 61 := (b64charAt_prop _).2.2
    simp [encode, decodeGroups, h1, h2, h3, hne]
    omega
  | case4 a b c rest ih =>
    intro h
    have ha : a < 256 := h a (by simp)
    have hb : b < 256 := h b (by simp)
    have hc : c < 256 := h c (by simp)
    have h1 : charIndex (b64charAt (a / 4)) = some (a / 4) :=
      charIndex_b64charAt _ (by omega)
    have h2 : charIndex (b64charAt (a % 4 * 16 + b / 16)) = some (a % 4 * 16 + b / 16) :=
      charIndex_b64charAt _ (by omega)
    have h3 : charIndex (b64charAt (b % 16 * 4 + c / 64)) = some (b % 16 * 4 + c / 64) :=
      charIndex_b64charAt _ (by omega)
    have h4 : charIndex (b64charAt (c % 64)) = some (c % 64) :=
      charIndex_b64charAt _ (by omega)
    have hne : b64charAt (c % 64) ≠ 61 := (b64charAt_prop _).2.2
    have hrest : decodeGroups (encode rest) = some rest :=
      ih (fun x hx => h x (by simp [hx]))
    simp [encode, decodeGroups, h1, h2, h3, h4, hne, hrest]
    omega

/-- Base64 decoding inverts base64 encoding on byte lists. -/
theorem decode_encode (l : List Nat) (h : ∀ b ∈ l, b < 256) :
    decode (encode l) = some l := by
  unfold decode
  rw [encode_filter, decodeGroups_encode l h]

/-! ## Shared roundtrip lemma and concrete fixtures -/

/-- `decrypt` inverts `encrypt` for every key size `aes.NewCipher` accepts. -/
theorem encrypt_decrypt (key pt : GoStr)
    (hk : key.length = 16 ∨ key.length = 24 ∨ key.length = 32)
    (hpt : ∀ b ∈ pt, b < 256) :
    ∃ ct, encrypt pt key = Except.ok ct ∧ decrypt ct key = Res.ok pt := by
  refine ⟨encode (cfbEncrypt (aesEncryptBlock key) bytes pt), ?_, ?_⟩
  · unfold encrypt aesNewCipher
    rw [if_pos hk]
  · unfold decrypt aesNewCipher
    rw [if_pos hk]
    have hdec : decode (encode (cfbEncrypt (aesEncryptBlock key) bytes pt))
        = some (cfbEncrypt (aesEncryptBlock key) bytes pt) :=
      decode_encode _ (fun b hb => cfbEncryptAux_lt _ _ _ _ b hb)
    simp only [hdec]
    rw [cfb_roundtrip (aesEncryptBlock key)
      (fun b => aesEncryptBlock_length key b hk)
      (fun b => aesEncryptBlock_lt key b) bytes pt hpt]

/-- A 32-byte key (all `'a'`). -/
def key32 : GoStr := List.replicate 32 97

/-- A 16-byte key (all `'a'`), a size Go's `aes.NewCipher` accepts. -/
def key16 : GoStr := List.replicate 16 97

/-- A 10-byte key (all `'x'`), the size from end-to-end scenario C. -/
def key10 : GoStr := List.replicate 10 120

/-- An env-var-backed vault over `"vault.txt"` and variable `"PW"`. -/
def envVault : Vault :=
  { service := "", user := "", filename := "vault.txt", passwordEnvVar := "PW",
    keyring := false }

/-- A world whose `"PW"` variable holds a valid 32-byte key and whose
filesystem is empty (Linux error text). -/
def envSys : Sys :=
  { keyringEntries := [], keyringDown := none, files := [],
    env := [("PW", key32)],
    fileNotFoundMsg := "open vault.txt: no such file or directory" }

/-! ## Claims -/

/-- C1: for every 32-byte key and every plaintext byte string (empty and
non-ASCII included), `decrypt (encrypt P K) K` returns `P` without error. -/
theorem C1_roundtrip (key pt : GoStr) (hk : key.length = 32)
    (hpt : ∀ b ∈ pt, b < 256) :
    ∃ ct, encrypt pt key = Except.ok ct ∧ decrypt ct key = Res.ok pt :=
  encrypt_decrypt key pt (Or.inr (Or.inr hk)) hpt

/-- Witness for C1 at a concrete 32-byte key and a plaintext containing a
non-ASCII byte. -/
theorem C1_roundtrip_witness :
    ∃ ct, encrypt [104, 105, 233] key32 = Except.ok ct ∧
      decrypt ct key32 = Res.ok [104, 105, 233] :=
  C1_roundtrip key32 [104, 105, 233] (by decide) (by decide)

/-- C2 counterexample: a 16-byte key is not 32 bytes long, yet `encrypt`
and `decrypt` succeed on it (Go's `aes.NewCipher` accepts 16, 24 and 32). -/
theorem C2_counterexample :
    key16.length ≠ 32 ∧ encrypt [] key16 = Except.ok [] ∧
      decrypt [] key16 = Res.ok [] :=
  ⟨by decide, rfl, rfl⟩

/-- C2 (amended): for every key whose length is not 16, 24 or 32 bytes,
`encrypt` and `decrypt` fail with the cipher-construction error, and a
`Write` with such env-var key material returns that error leaving the
world untouched, while a `Read` returns an error. -/
theorem C2_invalid_key_size (key : GoStr)
    (hk : ¬(key.length = 16 ∨ key.length = 24 ∨ key.length = 32)) :
    (∀ pt, encrypt pt key = Except.error "crypto/aes: invalid key size") ∧
    (∀ ctx, decrypt ctx key = Res.err "crypto/aes: invalid key size") ∧
    (∀ (v : Vault) (s : Sys) (c : GoStr), v.keyring = false →
      getenv s v.passwordEnvVar = key → key ≠ [] →
      Vault.Write v c s = (some "crypto/aes: invalid key size", s) ∧
      ∃ e, Vault.Read v s = Res.err e) := by
  have henc : ∀ pt, encrypt pt key = Except.error "crypto/aes: invalid key size" := by
    intro pt
    unfold encrypt aesNewCipher
    rw [if_neg hk]
  have hdec : ∀ ctx, decrypt ctx key = Res.err "crypto/aes: invalid key size" := by
    intro ctx
    unfold decrypt aesNewCipher
    rw [if_neg hk]
  refine ⟨henc, hdec, ?_⟩
  intro v s c hvk henv hne
  have hgp : v.getPassword s = (key, none) := by
    unfold Vault.getPassword Vault.getPasswordEnv
    rw [hvk]
    simp only [Bool.false_eq_true, if_false, henv, if_neg hne]
  constructor
  · unfold Vault.Write
    rw [hgp]
    simp [henc c]
  · unfold Vault.Read Vault.loadFromDisk
    cases hrf : readFile s v.filename with
    | error e => exact ⟨e, rfl⟩
    | ok data =>
      refine ⟨"crypto/aes: invalid key size", ?_⟩
      simp only [hgp, hdec data]

/-- Witness for C2 (amended) at the 10-byte env value of scenario C. -/
theorem C2_invalid_key_size_witness :
    Vault.Write envVault [104]
        { envSys with env := [("PW", key10)], files := [("vault.txt", [65])] }
      = (some "crypto/aes: invalid key size",
        { envSys with env := [("PW", key10)], files := [("vault.txt", [65])] }) ∧
    ∃ e, Vault.Read envVault
        { envSys with env := [("PW", key10)], files := [("vault.txt", [65])] }
      = Res.err e :=
  (C2_invalid_key_size key10 (by decide)).2.2 envVault
    { envSys with env := [("PW", key10)], files := [("vault.txt", [65])] }
    [104] (by decide) (by decide) (by decide)

/-- C3 counterexample: on the malformed base64 input `"!"`, `decrypt` with
a valid key does not return an error result; the `decode` helper panics. -/
theorem C3_counterexample :
    decode [33] = none ∧
      decrypt [33] key32 = Res.panicked "illegal base64 data" :=
  ⟨rfl, rfl⟩

/-- C3 (amended): for every input that is not well-formed standard base64
and every valid-size key, `decrypt` panics (aborts) instead of returning
the decode failure as an error, and `Read` of a file holding such input
propagates the panic. -/
theorem C3_decode_failure_panics (s key : GoStr)
    (hk : key.length = 16 ∨ key.length = 24 ∨ key.length = 32)
    (hbad : decode s = none) :
    decrypt s key = Res.panicked "illegal base64 data" ∧
    ∀ (v : Vault) (sys : Sys), sys.files.lookup v.filename = some s →
      v.getPassword sys = (key, none) →
      Vault.Read v sys = Res.panicked "illegal base64 data" := by
  have hd : decrypt s key = Res.panicked "illegal base64 data" := by
    unfold decrypt aesNewCipher
    rw [if_pos hk]
    simp only [hbad]
  refine ⟨hd, ?_⟩
  intro v sys hfile hgp
  unfold Vault.Read Vault.loadFromDisk readFile
  rw [hfile]
  simp only
  rw [hgp]
  simp only [hd]

/-- Witness for C3 (amended): a vault whose file holds `"!"`. -/
theorem C3_decode_failure_panics_witness :
    Vault.Read envVault { envSys with files := [("vault.txt", [33])] }
      = Res.panicked "illegal base64 data" :=
  (C3_decode_failure_panics [33] key32 (by decide) rfl).2 envVault
    { envSys with files := [("vault.txt", [33])] } (by decide) (by decide)

/-- C4: `encrypt` is deterministic — it reads no mutable state, the IV is
the fixed 16-byte constant `bytes`, and two `Write`s against worlds that
resolve the same password produce the same error outcome and, on success,
the same file content. -/
theorem C4_encrypt_deterministic :
    (∀ p k, encrypt p k = encrypt p k) ∧
    bytes.length = 16 ∧
    (∀ (v : Vault) (c : GoStr) (s₁ s₂ : Sys),
      v.getPassword s₁ = v.getPassword s₂ →
      (Vault.Write v c s₁).1 = (Vault.Write v c s₂).1 ∧
      ((Vault.Write v c s₁).1 = none →
        (Vault.Write v c s₁).2.files.lookup v.filename =
          (Vault.Write v c s₂).2.files.lookup v.filename)) := by
  refine ⟨fun p k => rfl, by decide, ?_⟩
  intro v c s₁ s₂ hgp
  unfold Vault.Write
  rw [hgp]
  cases hp : v.getPassword s₂ with
  | mk password e =>
    cases e with
    | some e0 => exact ⟨by simp [hp], fun hc => by simp [hp] at hc⟩
    | none =>
      cases he : encrypt c password with
      | error e0 => exact ⟨by simp [hp, he], fun hc => by simp [hp, he] at hc⟩
      | ok enc =>
        refine ⟨by simp [hp, he], fun _ => ?_⟩
        simp [hp, he, writeFile, List.lookup_cons]

/-- Witness for C4: two worlds differing in filesystem and platform text
but with the same password produce the same written content. -/
theorem C4_encrypt_deterministic_witness :
    (Vault.Write envVault [] envSys).1 =
      (Vault.Write envVault []
        { envSys with files := [("other", [1])], fileNotFoundMsg := "x" }).1 ∧
    (Vault.Write envVault [] envSys).2.files.lookup "vault.txt" =
      (Vault.Write envVault []
        { envSys with files := [("other", [1])], fileNotFoundMsg := "x" }).2.files.lookup
        "vault.txt" := by
  have h := C4_encrypt_deterministic.2.2 envVault []
    envSys { envSys with files := [("other", [1])], fileNotFoundMsg := "x" } (by decide)
  exact ⟨h.1, h.2 (by decide)⟩

/-! ## Keyring initialization claims -/

/-- The only returned (non-panic) error of `decrypt` is the
cipher-construction error. -/
theorem decrypt_err_msg (t k : GoStr) (e : String)
    (h : decrypt t k = Res.err e) : e = "crypto/aes: invalid key size" := by
  unfold decrypt aesNewCipher at h
  by_cases hk : k.length = 16 ∨ k.length = 24 ∨ k.length = 32
  · rw [if_pos hk] at h
    cases hd : decode t with
    | none => rw [hd] at h; simp at h
    | some ct => rw [hd] at h; simp at h
  · rw [if_neg hk] at h
    simp at h
    exact h.symm

/-- When the configured file exists and the password resolves, the
file-bootstrapping step of `InitKeyring` never writes: the world is
returned unchanged. -/
theorem initKeyringLoadFile_preserves (v : Vault) (s : Sys) (content pw : GoStr)
    (hfile : s.files.lookup v.filename = some content)
    (hgp : v.getPassword s = (pw, none)) :
    (initKeyringLoadFile v s).2 = s := by
  unfold initKeyringLoadFile Vault.loadFromDisk readFile
  rw [hfile]
  simp only
  rw [hgp]
  simp only
  cases hd : decrypt content pw with
  | ok x => simp
  | panicked m => simp
  | err e =>
    have he := decrypt_err_msg content pw e hd
    subst he
    have hf : ¬(strContains "crypto/aes: invalid key size"
        "system cannot find the file specified" = true) := by decide
    simp [hf]

/-- C5: if a keyring secret already exists for `(service, user)` and the
configured file already exists with non-empty content, running
`InitKeyring` again leaves the whole world (keyring entries and files)
unchanged: no `keyring.Set` and no truncating write happen. -/
theorem C5_initkeyring_idempotent (i : VaultInput) (rnd : Nat → Nat) (s : Sys)
    (pw content : GoStr)
    (hup : s.keyringDown = none)
    (hpw : s.keyringEntries.lookup (i.Service, i.User) = some pw)
    (hfile : s.files.lookup i.Filename = some content)
    (hne : content ≠ []) :
    (InitKeyring i rnd s).2 = s := by
  unfold InitKeyring
  have hget : keyringGet s i.Service i.User = Except.ok pw := by
    unfold keyringGet
    rw [hup]
    simp only [hpw]
  rw [hget]
  apply initKeyringLoadFile_preserves _ _ content pw
  · exact hfile
  · simp [Vault.getPassword, Vault.getPasswordKeyring, hget]

/-- Witness for C5: a world holding a secret and a non-empty file is
returned exactly as it was. -/
theorem C5_initkeyring_idempotent_witness :
    (InitKeyring ⟨"svc", "usr", "", "vault.txt"⟩ (fun _ => 0)
      { keyringEntries := [(("svc", "usr"), key32)], keyringDown := none,
        files := [("vault.txt", [65])], env := [],
        fileNotFoundMsg := "open vault.txt: no such file or directory" }).2 =
    { keyringEntries := [(("svc", "usr"), key32)], keyringDown := none,
      files := [("vault.txt", [65])], env := [],
      fileNotFoundMsg := "open vault.txt: no such file or directory" } :=
  C5_initkeyring_idempotent ⟨"svc", "usr", "", "vault.txt"⟩ (fun _ => 0) _
    key32 [65] (by decide) (by decide) (by decide) (by decide)

/-- C6 (code bug): with a usable keyring and the configured file absent,
`InitKeyring` only bootstraps the file when the platform's error text is
the Windows one.  On the Linux text it returns the raw read error and
creates nothing — contradicting its own doc comment ("If no existing
vault file can be found then one is created") and the spec. -/
theorem C6_initkeyring_file_creation_platform_dependent :
    ((InitKeyring ⟨"svc", "usr", "", "vault.txt"⟩ (fun _ => 0)
        { keyringEntries := [(("svc", "usr"), key32)], keyringDown := none,
          files := [], env := [],
          fileNotFoundMsg := "open vault.txt: no such file or directory" }).1 =
      Res.ok ({ service := "svc", user := "usr", filename := "vault.txt",
                passwordEnvVar := "", keyring := true },
              some "open vault.txt: no such file or directory") ∧
    (InitKeyring ⟨"svc", "usr", "", "vault.txt"⟩ (fun _ => 0)
        { keyringEntries := [(("svc", "usr"), key32)], keyringDown := none,
          files := [], env := [],
          fileNotFoundMsg := "open vault.txt: no such file or directory" }).2.files = []) ∧
    ((InitKeyring ⟨"svc", "usr", "", "vault.txt"⟩ (fun _ => 0)
        { keyringEntries := [(("svc", "usr"), key32)], keyringDown := none,
          files := [], env := [],
          fileNotFoundMsg :=
            "open vault.txt: The system cannot find the file specified." }).1 =
      Res.ok ({ service := "svc", user := "usr", filename := "vault.txt",
                passwordEnvVar := "", keyring := true }, none) ∧
    (InitKeyring ⟨"svc", "usr", "", "vault.txt"⟩ (fun _ => 0)
        { keyringEntries := [(("svc", "usr"), key32)], keyringDown := none,
          files := [], env := [],
          fileNotFoundMsg :=
            "open vault.txt: The system cannot find the file specified." }).2.files.lookup
        "vault.txt" = some []) := by
  refine ⟨⟨?_, ?_⟩, ⟨?_, ?_⟩⟩ <;> decide

/-- C7: `InitSmart` selects the env-var initializer exactly when
`PasswordEnvVar` is non-empty (even if keyring coordinates are present)
and the keyring initializer otherwise; the env-var initializer always
hands back an env-backed vault. -/
theorem C7_initsmart_dispatch (i : VaultInput) (rnd : Nat → Nat) (s : Sys) :
    InitSmart i rnd s =
      (if i.PasswordEnvVar = "" then InitKeyring i rnd s else InitEnvVar i s) ∧
    ∃ v e, (InitEnvVar i s).1 = Res.ok (v, e) ∧ v.keyring = false ∧
      v.passwordEnvVar = i.PasswordEnvVar ∧ v.filename = i.Filename ∧
      v.service = "" ∧ v.user = "" := by
  constructor
  · by_cases h : i.PasswordEnvVar = "" <;> simp [InitSmart, h]
  · unfold InitEnvVar
    cases hg : Vault.getPassword
        { service := "", user := "", filename := i.Filename,
          passwordEnvVar := i.PasswordEnvVar, keyring := false } s with
    | mk p e =>
      refine
        ⟨{ service := "", user := "", filename := i.Filename,
           passwordEnvVar := i.PasswordEnvVar, keyring := false },
         e, ?_, rfl, rfl, rfl, rfl, rfl⟩
      simp [hg]

/-! ## Password generator, write format, write atomicity -/

/-- C8 counterexample: `'0'` (byte 48) belongs to the spec's 62-symbol
alphabet `[a-zA-Z0-9]` but not to the source's `letterRunes` (which reads
`...123456789`), so no random stream ever makes `NewVaultPassword`
produce it. -/
theorem C8_counterexample :
    48 ∈ specAlphabet ∧ 48 ∉ letterRunes ∧
      ∀ (rnd : Nat → Nat), 48 ∉ NewVaultPassword rnd := by
  refine ⟨by decide, by decide, ?_⟩
  intro rnd h
  unfold NewVaultPassword randStringRunes at h
  rw [List.mem_map] at h
  obtain ⟨j, _, hj⟩ := h
  have hmem : letterRunes.getD (rnd j % letterRunes.length) 0 ∈ letterRunes :=
    getD_mem_of_lt _ _ _ (Nat.mod_lt _ (by decide))
  rw [hj] at hmem
  exact absurd hmem (by decide)

/-- C8 (amended): every generated password has length exactly 32 and draws
each character from the 61-symbol `letterRunes` alphabet (a subset of the
spec's `[a-zA-Z0-9]`), and every symbol of `letterRunes` — not of the full
62-symbol alphabet — is a possible output character. -/
theorem C8_password_format (rnd : Nat → Nat) (c : Nat) (hc : c ∈ letterRunes) :
    ((NewVaultPassword rnd).length = 32 ∧
      ∀ d ∈ NewVaultPassword rnd, d ∈ letterRunes ∧ d ∈ specAlphabet) ∧
    ∃ rnd2, c ∈ NewVaultPassword rnd2 := by
  have hsub : ∀ x ∈ letterRunes, x ∈ specAlphabet := by decide
  constructor
  · constructor
    · unfold NewVaultPassword randStringRunes keySize
      simp
    · intro d hd
      unfold NewVaultPassword randStringRunes at hd
      rw [List.mem_map] at hd
      obtain ⟨j, _, hj⟩ := hd
      have hmem : letterRunes.getD (rnd j % letterRunes.length) 0 ∈ letterRunes :=
        getD_mem_of_lt _ _ _ (Nat.mod_lt _ (by decide))
      rw [hj] at hmem
      exact ⟨hmem, hsub d hmem⟩
  · obtain ⟨⟨j, hjlt⟩, hget⟩ := List.mem_iff_get.mp hc
    refine ⟨fun _ => j, ?_⟩
    unfold NewVaultPassword randStringRunes
    rw [List.mem_map]
    refine ⟨0, by simp [keySize], ?_⟩
    rw [Nat.mod_eq_of_lt hjlt, List.getD_eq_getElem _ _ hjlt]
    simpa [List.get_eq_getElem] using hget

/-- Witness for C8 (amended) at `'a'` (byte 97) and a constant stream. -/
theorem C8_password_format_witness :
    ((NewVaultPassword (fun _ => 0)).length = 32 ∧
      ∀ d ∈ NewVaultPassword (fun _ => 0), d ∈ letterRunes ∧ d ∈ specAlphabet) ∧
    ∃ rnd2, 97 ∈ NewVaultPassword rnd2 :=
  C8_password_format (fun _ => 0) 97 (by decide)

/-- C9: a successful `Write` stores exactly the base64 encoding of the raw
CFB ciphertext, whose length equals the plaintext length; the empty
plaintext yields an empty ciphertext and hence empty file content. -/
theorem C9_write_format (v : Vault) (c : GoStr) (s : Sys) (pw : GoStr)
    (hgp : v.getPassword s = (pw, none)) (hlen : pw.length = 32) :
    ∃ ct, Vault.Write v c s = (none, writeFile s v.filename (encode ct)) ∧
      (Vault.Write v c s).2.files.lookup v.filename = some (encode ct) ∧
      ct = cfbEncrypt (aesEncryptBlock pw) bytes c ∧
      ct.length = c.length ∧ (c = [] → encode ct = []) := by
  have hk : pw.length = 16 ∨ pw.length = 24 ∨ pw.length = 32 := Or.inr (Or.inr hlen)
  have henc : encrypt c pw = Except.ok (encode (cfbEncrypt (aesEncryptBlock pw) bytes c)) := by
    unfold encrypt aesNewCipher
    rw [if_pos hk]
  have hw : Vault.Write v c s =
      (none, writeFile s v.filename (encode (cfbEncrypt (aesEncryptBlock pw) bytes c))) := by
    unfold Vault.Write
    rw [hgp]
    simp only [henc]
  refine ⟨cfbEncrypt (aesEncryptBlock pw) bytes c, hw, ?_, rfl, ?_, ?_⟩
  · rw [hw]
    simp [writeFile, List.lookup_cons]
  · exact cfbEncryptAux_length _ (fun b => aesEncryptBlock_length pw b hk) _ _ _ (le_refl _)
  · intro hc
    subst hc
    rfl

/-- Witness for C9: writing two bytes through an env-var vault. -/
theorem C9_write_format_witness :
    ∃ ct, Vault.Write envVault [104, 105] envSys =
        (none, writeFile envSys envVault.filename (encode ct)) ∧
      (Vault.Write envVault [104, 105] envSys).2.files.lookup envVault.filename
        = some (encode ct) ∧
      ct = cfbEncrypt (aesEncryptBlock key32) bytes [104, 105] ∧
      ct.length = [104, 105].length ∧ ([104, 105] = [] → encode ct = []) :=
  C9_write_format envVault [104, 105] envSys key32 (by decide) (by decide)

/-- C10: `Write` is atomic with respect to errors — whenever it returns an
error (password resolution or encryption), the world, and in particular
the backing file, is unchanged; the file write happens only after both
steps succeed. -/
theorem C10_write_atomic (v : Vault) (c : GoStr) (s : Sys)
    (h : (Vault.Write v c s).1.isSome = true) :
    (Vault.Write v c s).2 = s := by
  unfold Vault.Write at h ⊢
  cases hp : v.getPassword s with
  | mk password e =>
    cases e with
    | some e0 => simp [hp]
    | none =>
      cases he : encrypt c password with
      | error e0 => simp [hp, he]
      | ok enc =>
        rw [hp] at h
        simp [he] at h

/-- Witness for C10: a write against an unset env var fails and leaves the
world unchanged. -/
theorem C10_write_atomic_witness :
    (Vault.Write envVault [104] { envSys with env := [] }).2 =
      { envSys with env := [] } :=
  C10_write_atomic envVault [104] { envSys with env := [] } (by decide)
